import Mathlib

/-!
# Four-in-a-Row client logic (src/public/client.js)

A shallow embedding of the game logic of the browser client: the win
detector `checkWin`, the turn-ownership test `isMyTurn`, the two user
actions (`onCellClick` and the click handler of `controlBtn`), and the
`loadState` / `saveState` / `poll` glue around them.

JavaScript values are modelled as follows.

* A value that is a string, `null` or `undefined` (a board cell, `next`,
  `start`, `winner`, `myToken.user`) is an `Option String`; `none` stands for
  `null` / `undefined`, which this code never tells apart.
* `status` is a `String`.
* An array is a `List`; reading past its end gives `undefined`.
* `Date.now()` and the test `Math.random() < 0.5` are inputs of the actions.
* The DOM work of `render` reads the state and writes none of it; it is left out.
-/

namespace FourInARow

/-! ## Data model -/

/-- The object kept in the variable `state` and exchanged with the server as JSON. -/
structure GameState where
  board : List (Option String)
  start : Option String
  next : Option String
  status : String
  winner : Option String
  stripe : List Nat
  timestamp : Nat
deriving DecidableEq, Repr

/-- The object built by `TokenState.setToken`. -/
structure Token where
  user : Option String
  browser : String
  timestamp : Nat
deriving DecidableEq, Repr

/-- The module-level variables of one browser client, `state` and `myToken`,
together with the bodies of the `POST /state` requests it has issued so far
(most recent first). -/
structure Client where
  state : GameState
  myToken : Option Token
  posted : List GameState
deriving DecidableEq, Repr

/-- The value returned by `checkWin` when a line is found. -/
structure Win where
  winner : Option String
  stripe : List Nat
deriving DecidableEq, Repr

/-! ## JavaScript primitives used by the code -/

/-- JavaScript truthiness of a string-or-null value: a non-empty string. -/
def truthy : Option String → Bool
  | some v => v != ""
  | none => false

/-- The expression `board[i]`: the element, or `undefined` past the end. -/
def cell (board : List (Option String)) (i : Nat) : Option String :=
  board.getD i none

/-- The assignment `board[idx] = v`: inside the array the slot is replaced; past
its end the array grows, the skipped slots being holes that read `undefined`. -/
def setCell (board : List (Option String)) (idx : Nat) (v : Option String) :
    List (Option String) :=
  if idx < board.length then board.set idx v
  else board ++ List.replicate (idx - board.length) none ++ [v]

/-- The expression `Array(16).fill('')`. -/
def emptyBoard : List (Option String) := List.replicate 16 (some "")

/-! ## TokenState -/

/-- `TokenState.setToken(name)`; the browser label (from `navigator.userAgent`)
and the clock are inputs. The name is stored as given, with no check. -/
def setToken (browser : String) (now : Nat) (name : Option String) : Token :=
  { user := name, browser := browser, timestamp := now }

/-! ## Game logic -/

/-- The table `s` of `checkWin`: the lines in the order the loop visits them. -/
def checkWin.s : List (Nat × Nat × Nat × Nat) :=
  [ (0,1,2,3), (4,5,6,7), (8,9,10,11), (12,13,14,15),
    (0,4,8,12), (1,5,9,13), (2,6,10,14), (3,7,11,15),
    (0,5,10,15), (3,6,9,12) ]

/-- The condition of the `if` in the loop of `checkWin`, for the line `[a,b,c,d]`:
`board[a] && board[a] === board[b] && board[a] === board[c] && board[a] === board[d]`. -/
def checkWin.test (board : List (Option String)) : Nat × Nat × Nat × Nat → Bool
  | (a, b, c, d) =>
    truthy (cell board a) && (cell board a == cell board b) &&
      (cell board a == cell board c) && (cell board a == cell board d)

/-- The `for ... of` loop of `checkWin` over the remaining lines: the first line
that passes the test is returned at once. -/
def checkWin.loop (board : List (Option String)) :
    List (Nat × Nat × Nat × Nat) → Option Win
  | [] => none
  | (a, b, c, d) :: rest =>
    if checkWin.test board (a, b, c, d) then
      some { winner := cell board a, stripe := [a, b, c, d] }
    else checkWin.loop board rest

/-- `checkWin(board)`: `none` stands for the returned `null`. -/
def checkWin (board : List (Option String)) : Option Win :=
  checkWin.loop board checkWin.s

/-! ## Store glue -/

/-- The default object of `loadState`, created when the store answers `null`. -/
def defaultState (now : Nat) : GameState :=
  { board := emptyBoard, start := none, next := none, status := "needFlip",
    winner := none, stripe := [], timestamp := now }

/-- `loadState()`: `fetched` is the JSON answer of `GET /state` (`none` for `null`). -/
def loadState (now : Nat) (fetched : Option GameState) : GameState :=
  match fetched with
  | some s => s
  | none => defaultState now

/-- `saveState()`: stamp the state with the clock and post the whole object. -/
def saveState (now : Nat) (c : Client) : Client :=
  let st := { c.state with timestamp := now }
  { c with state := st, posted := st :: c.posted }

/-! ## GUI logic -/

/-- `isMyTurn()`, read for its truthiness (both callers test it in a condition). -/
def isMyTurn (c : Client) : Bool :=
  match c.myToken with
  | none => false
  | some tok =>
    truthy c.state.next && (c.state.status == "playing") &&
      ((c.state.next == some "O" && tok.user == some "O") ||
       (c.state.next == some "X" && tok.user == some "X"))

/-- The body of `onCellClick` after the three guards: the move, the win / draw /
toggle decision, on the state alone. -/
def applyMove (st : GameState) (idx : Nat) : GameState :=
  let st1 := { st with board := setCell st.board idx st.next }
  match checkWin st1.board with
  | some win =>
    { st1 with status := "over", winner := win.winner, stripe := win.stripe,
               start := win.winner }
  | none =>
    if !(st1.board.contains (some "")) then
      { st1 with status := "over", winner := none, stripe := [] }
    else
      { st1 with next := if st1.next == some "O" then some "X" else some "O" }

/-- `onCellClick(e)`, with `idx = parseInt(e.target.dataset.idx, 10)`. -/
def onCellClick (now : Nat) (idx : Nat) (c : Client) : Client :=
  if c.state.status != "playing" then c
  else if !(isMyTurn c) then c
  else if truthy (cell c.state.board idx) then c
  else saveState now { c with state := applyMove c.state idx }

/-- The state changes of the click handler of `controlBtn`, before `saveState`.
`lessHalf` is the outcome of the test `Math.random() < 0.5`. -/
def controlStep (lessHalf : Bool) (c : Client) : GameState :=
  let st := c.state
  if st.status == "needFlip" then
    let start := if lessHalf then some "O" else some "X"
    { st with start := start, next := start, board := emptyBoard, status := "ready" }
  else if st.status == "playing" then
    { st with board := emptyBoard, status := "ready", winner := none, stripe := [] }
  else if isMyTurn c then
    { st with board := emptyBoard, next := st.start, status := "playing",
              winner := none, stripe := [] }
  else st

/-- The click handler of `controlBtn`: the branch on `status`, then `saveState`
in every case. -/
def controlClick (now : Nat) (lessHalf : Bool) (c : Client) : Client :=
  saveState now { c with state := controlStep lessHalf c }

/-- The body of one tick of `poll`, `newState` being the answer of `GET /state`;
the local `state` is never `null` once `loadState` has run. (While the store is
still empty the answer is `null`, and the tick throws at `newState.timestamp`
before it assigns anything.) -/
def pollTick (newState : GameState) (c : Client) : Client :=
  if newState.timestamp != c.state.timestamp then { c with state := newState }
  else c

/-! ## The lines of the grid, as the specification words them -/

/-- Row `r` of the 4×4 grid, the cells being numbered row by row. -/
def rowLine (r : Nat) : List Nat := [4 * r, 4 * r + 1, 4 * r + 2, 4 * r + 3]

/-- Column `k` of the 4×4 grid. -/
def colLine (k : Nat) : List Nat := [k, k + 4, k + 8, k + 12]

/-- The 10 lines: 4 rows, 4 columns, 2 diagonals. -/
def gridLines : List (List Nat) :=
  (List.range 4).map rowLine ++ (List.range 4).map colLine ++
    [[0, 5, 10, 15], [3, 6, 9, 12]]

/-- The line `l` has identical non-empty cells on `board`. -/
def fourInLine (board : List (Option String)) (l : List Nat) : Prop :=
  ∃ v : String, v ≠ "" ∧ ∀ i ∈ l, cell board i = some v

/-- The indices of an entry of the table of `checkWin`, as a list. -/
def lineList : Nat × Nat × Nat × Nat → List Nat
  | (a, b, c, d) => [a, b, c, d]

/-- Every cell of the board is `""`, `"O"` or `"X"`. -/
def overSymbols (board : List (Option String)) : Prop :=
  ∀ x ∈ board, x = some "" ∨ x = some "O" ∨ x = some "X"

/-- A full board with no line: the draw position used below. -/
def drawBoard : List (Option String) :=
  [ some "O", some "X", some "O", some "X",
    some "O", some "X", some "O", some "X",
    some "X", some "O", some "X", some "O",
    some "X", some "O", some "X", some "O" ]

/-- The board of the scenario of the specification: "O" at 0, 1, 2, the rest empty. -/
def threeInRow : List (Option String) :=
  [some "O", some "O", some "O"] ++ List.replicate 13 (some "")

/-- The draw position with its last cell still empty. -/
def almostDraw : List (Option String) := drawBoard.set 15 (some "")

/-- A state of the given status and board, with "O" to move and "O" as starter. -/
def sampleState (status : String) (board : List (Option String)) : GameState :=
  { board := board, start := some "O", next := some "O", status := status,
    winner := none, stripe := [], timestamp := 100 }

/-- The identity of a participant who entered `name` at the prompt. -/
def player (name : String) : Token := setToken "Firefox" 1 (some name)

/-- A client holding the sample state, with the identity `name` and no request issued. -/
def sampleClient (status : String) (board : List (Option String)) (name : String) : Client :=
  { state := sampleState status board, myToken := some (player name), posted := [] }

/-- The order in which the specification lists the 10 lines: rows 0 to 3, columns
0 to 3, the main diagonal, the anti-diagonal. -/
def lineOrder : List (List Nat) :=
  [ [0, 1, 2, 3], [4, 5, 6, 7], [8, 9, 10, 11], [12, 13, 14, 15],
    [0, 4, 8, 12], [1, 5, 9, 13], [2, 6, 10, 14], [3, 7, 11, 15],
    [0, 5, 10, 15], [3, 6, 9, 12] ]

/-- A position with "O" to move in which row 0 and column 3 both lack only cell 3. -/
def crossBoard : List (Option String) :=
  [ some "O", some "O", some "O", some "",
    some "X", some "X", some "X", some "O",
    some "X", some "X", some "X", some "O",
    some "",  some "",  some "",  some "O" ]

/-- A board on which rows 0 and 1 are both complete. -/
def twoRows : List (Option String) :=
  [some "O", some "O", some "O", some "O", some "X", some "X", some "X", some "X"] ++
    List.replicate 8 (some "")

/-- The board with row 0 held by "O" and the rest empty. -/
def rowOfO : List (Option String) :=
  [some "O", some "O", some "O", some "O"] ++ List.replicate 12 (some "")

/-! ## The invariants of the data model -/

/-- The stripe invariant as the specification words it: `stripe`, when non-empty,
has exactly 4 indices whose cells all equal `winner`. -/
def stripeInv (st : GameState) : Prop :=
  st.stripe ≠ [] → st.stripe.length = 4 ∧ ∀ i ∈ st.stripe, cell st.board i = st.winner

/-- The stripe invariant, with two more facts about a state that shows a stripe:
its status is not `needFlip`, and `winner` is a non-empty string. -/
def stripeInvStrong (st : GameState) : Prop :=
  st.stripe ≠ [] →
    st.status ≠ "needFlip" ∧ st.stripe.length = 4 ∧
      ∃ v : String, v ≠ "" ∧ st.winner = some v ∧ ∀ i ∈ st.stripe, cell st.board i = some v

/-- The board-shape and turn invariants: 16 slots, and `playing` implies `next` is
"O" or "X". -/
def shapeInv (st : GameState) : Prop :=
  st.board.length = 16 ∧ (st.status = "playing" → st.next = some "O" ∨ st.next = some "X")

/-- A state of status `needFlip` that still shows the line of a finished match. -/
def staleFlipState : GameState :=
  { board := rowOfO, start := some "O", next := some "O", status := "needFlip",
    winner := some "O", stripe := [0, 1, 2, 3], timestamp := 100 }

/-- A state of status `playing` whose stripe is row 0 of an empty board, `winner`
being the empty string. -/
def emptyStripeState : GameState :=
  { board := emptyBoard, start := some "O", next := some "O", status := "playing",
    winner := some "", stripe := [0, 1, 2, 3], timestamp := 100 }

/-! ## Sequences of actions on the shared state -/

/-- One user gesture: a click on the control button or on a cell, by the client
holding the identity `who`, with the clock value (and coin outcome) it draws. -/
inductive Action where
  | control (who : Token) (now : Nat) (lessHalf : Bool)
  | click (who : Token) (now : Nat) (idx : Nat)
deriving Repr

/-- The state after the gesture, made by a client whose local state is `st`. -/
def Action.apply (a : Action) (st : GameState) : GameState :=
  match a with
  | .control who now lessHalf =>
    (controlClick now lessHalf { state := st, myToken := some who, posted := [] }).state
  | .click who now idx =>
    (onCellClick now idx { state := st, myToken := some who, posted := [] }).state

/-- The state after a sequence of gestures, each client seeing the state the
previous gesture left. -/
def run (acts : List Action) (st : GameState) : GameState :=
  acts.foldl (fun s a => a.apply s) st

/-! ## The win detector -/

theorem s_eq_gridLines : checkWin.s.map lineList = gridLines := by decide

theorem truthy_iff (x : Option String) : truthy x = true ↔ ∃ v : String, v ≠ "" ∧ x = some v := by
  cases x with
  | none => simp [truthy]
  | some v => simp [truthy]

theorem test_iff (board : List (Option String)) (l : Nat × Nat × Nat × Nat) :
    checkWin.test board l = true ↔ fourInLine board (lineList l) := by
  obtain ⟨a, b, c, d⟩ := l
  simp only [checkWin.test, fourInLine, lineList, Bool.and_eq_true, beq_iff_eq, truthy_iff,
    List.mem_cons, List.mem_singleton, List.not_mem_nil, or_false, forall_eq_or_imp, forall_eq]
  constructor
  · rintro ⟨⟨⟨⟨v, hv, ha⟩, hb⟩, hc⟩, hd⟩
    exact ⟨v, hv, ha, hb ▸ ha, hc ▸ ha, hd ▸ ha⟩
  · rintro ⟨v, hv, ha, hb, hc, hd⟩
    exact ⟨⟨⟨⟨v, hv, ha⟩, ha.trans hb.symm⟩, ha.trans hc.symm⟩, ha.trans hd.symm⟩

theorem loop_eq_none (board : List (Option String)) (ls : List (Nat × Nat × Nat × Nat)) :
    checkWin.loop board ls = none ↔ ∀ l ∈ ls, checkWin.test board l = false := by
  induction ls with
  | nil => simp [checkWin.loop]
  | cons l rest ih =>
    obtain ⟨a, b, c, d⟩ := l
    by_cases h : checkWin.test board (a, b, c, d) = true
    · simp [checkWin.loop, h]
    · simp [checkWin.loop, h, ih]

/-- The loop returns the first line of the list that passes the test. -/
theorem loop_eq_some (board : List (Option String)) (ls : List (Nat × Nat × Nat × Nat))
    (w : Win) :
    checkWin.loop board ls = some w ↔
      ∃ pre l post, ls = pre ++ l :: post ∧ (∀ x ∈ pre, checkWin.test board x = false) ∧
        checkWin.test board l = true ∧
        w = { winner := cell board l.1, stripe := lineList l } := by
  induction ls with
  | nil => simp [checkWin.loop]
  | cons l rest ih =>
    obtain ⟨a, b, c, d⟩ := l
    by_cases h : checkWin.test board (a, b, c, d) = true
    · simp only [checkWin.loop, h, if_true, Option.some.injEq]
      constructor
      · intro hw
        exact ⟨[], (a, b, c, d), rest, rfl, by simp, h, hw.symm⟩
      · rintro ⟨pre, l, post, hls, hpre, _, hw⟩
        cases pre with
        | nil =>
          simp only [List.nil_append, List.cons.injEq] at hls
          rw [hw, ← hls.1]; rfl
        | cons p pre =>
          simp only [List.cons_append, List.cons.injEq] at hls
          have := hpre p (by simp)
          rw [← hls.1, h] at this
          exact absurd this (by simp)
    · have h' : checkWin.test board (a, b, c, d) = false := by simpa using h
      simp only [checkWin.loop, h', Bool.false_eq_true, if_false, ih]
      constructor
      · rintro ⟨pre, l, post, hls, hpre, hl, hw⟩
        refine ⟨(a, b, c, d) :: pre, l, post, by simp [hls], ?_, hl, hw⟩
        intro x hx
        rcases List.mem_cons.1 hx with rfl | hx
        · exact h'
        · exact hpre x hx
      · rintro ⟨pre, l, post, hls, hpre, hl, hw⟩
        cases pre with
        | nil =>
          simp only [List.nil_append, List.cons.injEq] at hls
          rw [← hls.1, h'] at hl
          exact absurd hl (by simp)
        | cons p pre =>
          simp only [List.cons_append, List.cons.injEq] at hls
          exact ⟨pre, l, post, hls.2, fun x hx => hpre x (by simp [hx]), hl, hw⟩

/-- C1. For every board (so for every 16-cell board over "", "O", "X", whatever
its fill level): if one of the 10 lines (4 rows, 4 columns, 2 diagonals) has four
identical non-empty cells, `checkWin` returns a result whose stripe is one of the
10 lines, all of whose cells are non-empty and equal to the returned winner; if
no line has, `checkWin` returns `null`. -/
theorem checkWin_detects (board : List (Option String)) :
    ((∃ l ∈ gridLines, fourInLine board l) →
      ∃ w, checkWin board = some w ∧ w.stripe ∈ gridLines ∧
        ∃ v : String, v ≠ "" ∧ w.winner = some v ∧ ∀ i ∈ w.stripe, cell board i = some v) ∧
    ((¬ ∃ l ∈ gridLines, fourInLine board l) → checkWin board = none) := by
  constructor
  · rintro ⟨l, hl, hfour⟩
    rw [← s_eq_gridLines, List.mem_map] at hl
    obtain ⟨t, ht, rfl⟩ := hl
    cases hw : checkWin board with
    | none =>
      have := (loop_eq_none board checkWin.s).1 hw t ht
      rw [(test_iff board t).2 hfour] at this
      exact absurd this (by simp)
    | some w =>
      obtain ⟨pre, l, post, hs, _, hl, rfl⟩ := (loop_eq_some board checkWin.s w).1 hw
      refine ⟨_, rfl, ?_, ?_⟩
      · rw [← s_eq_gridLines, List.mem_map]
        exact ⟨l, by simp [hs], rfl⟩
      · obtain ⟨v, hv, hall⟩ := (test_iff board l).1 hl
        obtain ⟨a, b, c, d⟩ := l
        exact ⟨v, hv, hall a (by simp [lineList]), hall⟩
  · intro hno
    refine (loop_eq_none board checkWin.s).2 fun t ht => ?_
    by_contra hne
    have hT : checkWin.test board t = true := by simpa using hne
    exact hno ⟨lineList t, by rw [← s_eq_gridLines]; exact List.mem_map_of_mem _ ht,
      (test_iff board t).1 hT⟩

/-- C1 at two boards: a full board with no line gives `null`, and the claim
holds of it as of every board. -/
theorem checkWin_detects_witness :
    checkWin drawBoard = none ∧
    (((∃ l ∈ gridLines, fourInLine drawBoard l) →
      ∃ w, checkWin drawBoard = some w ∧ w.stripe ∈ gridLines ∧
        ∃ v : String, v ≠ "" ∧ w.winner = some v ∧
          ∀ i ∈ w.stripe, cell drawBoard i = some v) ∧
    ((¬ ∃ l ∈ gridLines, fourInLine drawBoard l) → checkWin drawBoard = none)) :=
  ⟨by decide, checkWin_detects drawBoard⟩

/-! ## Cells and the board assignment -/

theorem cell_setCell_self (board : List (Option String)) (idx : Nat) (v : Option String) :
    cell (setCell board idx v) idx = v := by
  unfold cell setCell
  split
  · next h => simp [List.getD_eq_getElem?_getD, List.getElem?_set, h]
  · next h =>
    have h1 : (board ++ List.replicate (idx - board.length) none).length = idx := by
      simp; omega
    rw [List.getD_eq_getElem?_getD, List.getElem?_append_right (by omega), h1]
    simp

theorem cell_setCell_ne (board : List (Option String)) (idx j : Nat) (v : Option String)
    (hj : j ≠ idx) : cell (setCell board idx v) j = cell board j := by
  unfold cell setCell
  split
  · next h =>
    simp [List.getD_eq_getElem?_getD, List.getElem?_set, Ne.symm hj]
  · next h =>
    simp only [List.getD_eq_getElem?_getD]
    by_cases hjl : j < board.length
    · rw [List.append_assoc, List.getElem?_append_left hjl]
    · rw [List.getElem?_eq_none (by omega : board.length ≤ j)]
      by_cases hji : j < idx
      · rw [List.getElem?_append_left (by simp; omega),
          List.getElem?_append_right (by omega)]
        simp only [List.getElem?_replicate]
        split <;> rfl
      · rw [List.getElem?_eq_none (by simp; omega)]

theorem lt_length_of_cell_eq_some (board : List (Option String)) (idx : Nat) (v : String)
    (h : cell board idx = some v) : idx < board.length := by
  by_contra hlt
  simp [cell, List.getD_eq_getElem?_getD, List.getElem?_eq_none (by omega : board.length ≤ idx)] at h

theorem length_setCell (board : List (Option String)) (idx : Nat) (v : Option String)
    (h : idx < board.length) : (setCell board idx v).length = board.length := by
  simp [setCell, h]

/-! ## Turn ownership -/

theorem isMyTurn_iff (c : Client) :
    isMyTurn c = true ↔
      ∃ tok, c.myToken = some tok ∧ c.state.status = "playing" ∧
        ((c.state.next = some "O" ∧ tok.user = some "O") ∨
         (c.state.next = some "X" ∧ tok.user = some "X")) := by
  unfold isMyTurn
  cases hm : c.myToken with
  | none => simp
  | some tok =>
    simp only [Bool.and_eq_true, Bool.or_eq_true, beq_iff_eq, Option.some.injEq,
      exists_eq_left']
    constructor
    · rintro ⟨⟨_, hs⟩, h⟩
      exact ⟨hs, h⟩
    · rintro ⟨hs, h⟩
      refine ⟨⟨?_, hs⟩, h⟩
      rcases h with ⟨hn, _⟩ | ⟨hn, _⟩ <;> rw [hn] <;> decide

theorem isMyTurn_of_not_playing (c : Client) (h : c.state.status ≠ "playing") :
    isMyTurn c = false := by
  cases hturn : isMyTurn c with
  | false => rfl
  | true =>
    obtain ⟨_, _, hs, _⟩ := (isMyTurn_iff c).1 hturn
    exact absurd hs h

theorem isMyTurn_of_owner (c : Client) (tok : Token) (hst : c.state.status = "playing")
    (hnext : c.state.next = some "O" ∨ c.state.next = some "X")
    (htok : c.myToken = some tok) (huser : tok.user = c.state.next) : isMyTurn c = true := by
  refine (isMyTurn_iff c).2 ⟨tok, htok, hst, ?_⟩
  rcases hnext with h | h
  · exact Or.inl ⟨h, huser.trans h⟩
  · exact Or.inr ⟨h, huser.trans h⟩

/-! ## The cell click -/

/-- Past its three guards, `onCellClick` makes the move and saves. -/
theorem onCellClick_of_move (now idx : Nat) (c : Client) (tok : Token)
    (hst : c.state.status = "playing")
    (hnext : c.state.next = some "O" ∨ c.state.next = some "X")
    (htok : c.myToken = some tok) (huser : tok.user = c.state.next)
    (hempty : cell c.state.board idx = some "") :
    onCellClick now idx c = saveState now { c with state := applyMove c.state idx } := by
  have hturn := isMyTurn_of_owner c tok hst hnext htok huser
  simp [onCellClick, hst, hturn, hempty, truthy]

/-! ## The control button outside a match -/

/-- In the last branch of the handler the test `isMyTurn()` fails, as it asks for
the status `playing`: the branch changes nothing. -/
theorem controlStep_of_idle (lessHalf : Bool) (c : Client)
    (h1 : c.state.status ≠ "needFlip") (h2 : c.state.status ≠ "playing") :
    controlStep lessHalf c = c.state := by
  simp [controlStep, h1, h2, isMyTurn_of_not_playing c h2]

/-- C2 (the code departs from it). For every state with status ready or over and
every invoking identity, the one whose symbol equals `next` included, the control
action does not start the match: it leaves every field but the timestamp as it
was, so the status is not `playing` afterwards. -/
theorem controlClick_never_starts (now : Nat) (lessHalf : Bool) (c : Client)
    (h : c.state.status = "ready" ∨ c.state.status = "over") :
    (controlClick now lessHalf c).state = { c.state with timestamp := now } ∧
      (controlClick now lessHalf c).state.status ≠ "playing" := by
  have h1 : c.state.status ≠ "needFlip" := by rcases h with h | h <;> rw [h] <;> decide
  have h2 : c.state.status ≠ "playing" := by rcases h with h | h <;> rw [h] <;> decide
  simp [controlClick, saveState, controlStep_of_idle lessHalf c h1 h2, h2]

/-- C2 at the state ready with "O" next, the identity "O" clicking the button:
the status stays `ready`. -/
theorem controlClick_never_starts_witness :
    (sampleClient "ready" emptyBoard "O").state.next = some "O" ∧
    ((sampleClient "ready" emptyBoard "O").myToken.bind Token.user) = some "O" ∧
    (controlClick 200 true (sampleClient "ready" emptyBoard "O")).state.status = "ready" ∧
    ((controlClick 200 true (sampleClient "ready" emptyBoard "O")).state =
        { (sampleClient "ready" emptyBoard "O").state with timestamp := 200 } ∧
      (controlClick 200 true (sampleClient "ready" emptyBoard "O")).state.status ≠ "playing") :=
  ⟨rfl, rfl, rfl, controlClick_never_starts 200 true _ (Or.inl rfl)⟩

/-! ## Reachability -/

theorem apply_idle (a : Action) (st : GameState)
    (h : st.status = "needFlip" ∨ st.status = "ready") :
    (a.apply st).status = "needFlip" ∨ (a.apply st).status = "ready" := by
  have hnp : st.status ≠ "playing" := by rcases h with h | h <;> rw [h] <;> decide
  cases a with
  | click who now idx =>
    simp only [Action.apply, onCellClick]
    simp [hnp, h]
  | control who now lessHalf =>
    rcases h with h | h
    · right
      simp [Action.apply, controlClick, saveState, controlStep, h]
    · right
      have h1 : st.status ≠ "needFlip" := by rw [h]; decide
      have := controlStep_of_idle lessHalf
        { state := st, myToken := some who, posted := [] } h1 hnp
      simp [Action.apply, controlClick, saveState, this, h]

theorem run_idle (acts : List Action) (st : GameState)
    (h : st.status = "needFlip" ∨ st.status = "ready") :
    (run acts st).status = "needFlip" ∨ (run acts st).status = "ready" := by
  induction acts generalizing st with
  | nil => exact h
  | cons a rest ih => exact ih (a.apply st) (apply_idle a st h)

/-- C3 (the code departs from it). From the default initial state, after every
finite sequence of control actions and cell clicks, by whatever identities, the
status is `needFlip` or `ready`: neither `playing` nor `over` is ever reached. -/
theorem run_never_playing (now : Nat) (acts : List Action) :
    (run acts (loadState now none)).status ≠ "playing" ∧
      (run acts (loadState now none)).status ≠ "over" := by
  have h := run_idle acts (loadState now none) (Or.inl rfl)
  constructor <;> rcases h with h | h <;> rw [h] <;> decide

/-! ## The outcomes of a move -/

/-- C4. For every state with status playing, `next` "O" or "X", the invoking
identity holding the symbol `next`, and an empty cell `idx` (of 0..15 on a
16-cell board, and of any board): if `checkWin` finds a line on the board with `next` placed at `idx`, the cell click ends with
`board[idx] = next`, status over, winner and stripe as detected, and `start` the
detected winner (and the state is stamped and posted). -/
theorem onCellClick_win (now idx : Nat) (c : Client) (tok : Token) (w : Win)
    (hst : c.state.status = "playing")
    (hnext : c.state.next = some "O" ∨ c.state.next = some "X")
    (htok : c.myToken = some tok) (huser : tok.user = c.state.next)
    (hempty : cell c.state.board idx = some "")
    (hwin : checkWin (setCell c.state.board idx c.state.next) = some w) :
    cell (onCellClick now idx c).state.board idx = c.state.next ∧
      (onCellClick now idx c).state.status = "over" ∧
      (onCellClick now idx c).state.winner = w.winner ∧
      (onCellClick now idx c).state.stripe = w.stripe ∧
      (onCellClick now idx c).state.start = w.winner ∧
      (onCellClick now idx c).posted = (onCellClick now idx c).state :: c.posted := by
  rw [onCellClick_of_move now idx c tok hst hnext htok huser hempty]
  simp [saveState, applyMove, hwin, cell_setCell_self]

/-- C4 at the scenario of the specification: "O" at 0, 1, 2, "O" to move, click
on 3. -/
theorem onCellClick_win_witness :
    (onCellClick 200 3 (sampleClient "playing" threeInRow "O")).state.board =
        [some "O", some "O", some "O", some "O"] ++ List.replicate 12 (some "") ∧
    (cell (onCellClick 200 3 (sampleClient "playing" threeInRow "O")).state.board 3 = some "O" ∧
      (onCellClick 200 3 (sampleClient "playing" threeInRow "O")).state.status = "over" ∧
      (onCellClick 200 3 (sampleClient "playing" threeInRow "O")).state.winner = some "O" ∧
      (onCellClick 200 3 (sampleClient "playing" threeInRow "O")).state.stripe = [0, 1, 2, 3] ∧
      (onCellClick 200 3 (sampleClient "playing" threeInRow "O")).state.start = some "O" ∧
      (onCellClick 200 3 (sampleClient "playing" threeInRow "O")).posted =
        (onCellClick 200 3 (sampleClient "playing" threeInRow "O")).state :: []) :=
  ⟨by decide,
    onCellClick_win 200 3 (sampleClient "playing" threeInRow "O") (player "O")
      { winner := some "O", stripe := [0, 1, 2, 3] } rfl (Or.inl rfl) rfl rfl
      (by decide) (by decide)⟩

/-- C5. For every state with status playing and every invoking identity whose
symbol differs from `next`, or no identity at all, a cell click at any index
changes nothing: the state (board and timestamp included) is the same and no
request is posted. -/
theorem onCellClick_not_owner (now idx : Nat) (c : Client)
    (hst : c.state.status = "playing")
    (hwho : c.myToken = none ∨ ∃ tok, c.myToken = some tok ∧ tok.user ≠ c.state.next) :
    onCellClick now idx c = c := by
  have hturn : isMyTurn c = false := by
    cases hm : isMyTurn c with
    | false => rfl
    | true =>
      obtain ⟨tok, htok, _, h⟩ := (isMyTurn_iff c).1 hm
      rcases hwho with hnone | ⟨tok2, htok2, hne⟩
      · rw [hnone] at htok; cases htok
      · rw [htok2] at htok
        cases htok
        rcases h with ⟨hn, hu⟩ | ⟨hn, hu⟩ <;> exact absurd (hu.trans hn.symm) hne
  simp [onCellClick, hst, hturn]

/-- C5 when "O" is next and the identity "X" clicks: the client is as before. -/
theorem onCellClick_not_owner_witness :
    (sampleClient "playing" threeInRow "X").state.next = some "O" ∧
    onCellClick 200 1 (sampleClient "playing" threeInRow "X") =
      sampleClient "playing" threeInRow "X" :=
  ⟨rfl, onCellClick_not_owner 200 1 (sampleClient "playing" threeInRow "X") rfl
    (Or.inr ⟨player "X", rfl, by decide⟩)⟩

/-- C6. For every state whose status is not playing, every invoking identity and
every index, the cell click changes nothing: the state (timestamp included) is
the same and no request is posted. -/
theorem onCellClick_not_playing (now idx : Nat) (c : Client)
    (hst : c.state.status ≠ "playing") : onCellClick now idx c = c := by
  simp [onCellClick, hst]

/-- C6 at the statuses needFlip, ready and over. -/
theorem onCellClick_not_playing_witness :
    onCellClick 200 3 (sampleClient "needFlip" threeInRow "O") =
        sampleClient "needFlip" threeInRow "O" ∧
    onCellClick 200 3 (sampleClient "ready" threeInRow "O") =
        sampleClient "ready" threeInRow "O" ∧
    onCellClick 200 3 (sampleClient "over" threeInRow "O") =
        sampleClient "over" threeInRow "O" :=
  ⟨onCellClick_not_playing 200 3 _ (by decide), by decide, by decide⟩

/-- C7. For every state and every index whose cell holds "O" or "X" (so for
status playing, the invoking identity holding the symbol `next`, and an index in
0..15), the cell click changes nothing: board, next, status, winner, stripe,
start and timestamp are the same and no request is posted. -/
theorem onCellClick_occupied (now idx : Nat) (c : Client)
    (hocc : cell c.state.board idx = some "O" ∨ cell c.state.board idx = some "X") :
    onCellClick now idx c = c := by
  have ht : truthy (cell c.state.board idx) = true := by
    rcases hocc with h | h <;> rw [h] <;> decide
  simp [onCellClick, ht]

/-- C7 at the board with "O" at 0, 1, 2: the owner "O" clicks the occupied cell 1. -/
theorem onCellClick_occupied_witness :
    isMyTurn (sampleClient "playing" threeInRow "O") = true ∧
    onCellClick 200 1 (sampleClient "playing" threeInRow "O") =
      sampleClient "playing" threeInRow "O" :=
  ⟨by decide,
    onCellClick_occupied 200 1 (sampleClient "playing" threeInRow "O") (Or.inl (by decide))⟩

/-- C8. For every state with status playing, `next` "O" or "X", the invoking
identity holding the symbol `next`, and an empty cell `idx`: if, with `next`
placed at `idx`, the board has no empty cell and `checkWin` finds no line, the
cell click ends with status over, winner `null`, stripe empty and `start`
unchanged. -/
theorem onCellClick_draw (now idx : Nat) (c : Client) (tok : Token)
    (hst : c.state.status = "playing")
    (hnext : c.state.next = some "O" ∨ c.state.next = some "X")
    (htok : c.myToken = some tok) (huser : tok.user = c.state.next)
    (hempty : cell c.state.board idx = some "")
    (hfull : ∀ x ∈ setCell c.state.board idx c.state.next, x ≠ some "")
    (hnowin : checkWin (setCell c.state.board idx c.state.next) = none) :
    (onCellClick now idx c).state.status = "over" ∧
      (onCellClick now idx c).state.winner = none ∧
      (onCellClick now idx c).state.stripe = [] ∧
      (onCellClick now idx c).state.start = c.state.start := by
  rw [onCellClick_of_move now idx c tok hst hnext htok huser hempty]
  have hc : some "" ∉ setCell c.state.board idx c.state.next := fun hmem => hfull _ hmem rfl
  simp [saveState, applyMove, hnowin, hc]

/-- C8 at the draw position: "O" fills the last cell, 15, and no line forms. -/
theorem onCellClick_draw_witness :
    (onCellClick 200 15 (sampleClient "playing" almostDraw "O")).state.board = drawBoard ∧
    ((onCellClick 200 15 (sampleClient "playing" almostDraw "O")).state.status = "over" ∧
      (onCellClick 200 15 (sampleClient "playing" almostDraw "O")).state.winner = none ∧
      (onCellClick 200 15 (sampleClient "playing" almostDraw "O")).state.stripe = [] ∧
      (onCellClick 200 15 (sampleClient "playing" almostDraw "O")).state.start = some "O") :=
  ⟨by decide,
    onCellClick_draw 200 15 (sampleClient "playing" almostDraw "O") (player "O")
      rfl (Or.inl rfl) rfl rfl (by decide) (by decide) (by decide)⟩

/-- C9. For every state with status playing, `next` "O" or "X", the invoking
identity holding the symbol `next`, and an empty cell `idx`: if, with `next`
placed at `idx`, `checkWin` finds no line and some cell is still empty, the cell
click ends with `board[idx]` the previous `next`, every other cell as it was,
`next` toggled ("O" to "X", "X" to "O"), and status, start, winner and stripe
unchanged. -/
theorem onCellClick_toggle (now idx : Nat) (c : Client) (tok : Token)
    (hst : c.state.status = "playing")
    (hnext : c.state.next = some "O" ∨ c.state.next = some "X")
    (htok : c.myToken = some tok) (huser : tok.user = c.state.next)
    (hempty : cell c.state.board idx = some "")
    (hnowin : checkWin (setCell c.state.board idx c.state.next) = none)
    (hroom : some "" ∈ setCell c.state.board idx c.state.next) :
    cell (onCellClick now idx c).state.board idx = c.state.next ∧
      (∀ j, j ≠ idx → cell (onCellClick now idx c).state.board j = cell c.state.board j) ∧
      (onCellClick now idx c).state.board.length = c.state.board.length ∧
      (c.state.next = some "O" → (onCellClick now idx c).state.next = some "X") ∧
      (c.state.next = some "X" → (onCellClick now idx c).state.next = some "O") ∧
      (onCellClick now idx c).state.status = c.state.status ∧
      (onCellClick now idx c).state.start = c.state.start ∧
      (onCellClick now idx c).state.winner = c.state.winner ∧
      (onCellClick now idx c).state.stripe = c.state.stripe := by
  rw [onCellClick_of_move now idx c tok hst hnext htok huser hempty]
  have hlen := length_setCell c.state.board idx c.state.next
    (lt_length_of_cell_eq_some _ _ _ hempty)
  have hmove : applyMove c.state idx =
      { c.state with board := setCell c.state.board idx c.state.next,
                     next := if c.state.next = some "O" then some "X" else some "O" } := by
    simp [applyMove, hnowin, hroom]
  simp only [saveState, hmove, cell_setCell_self, hlen, true_and]
  refine ⟨fun j hj => cell_setCell_ne _ _ _ _ hj, ?_, ?_, trivial⟩
  · intro h; simp [h]
  · intro h; simp [h]

/-- C9 at the board with "O" at 0, 1, 2: "O" plays 4, no line forms, "X" is next. -/
theorem onCellClick_toggle_witness :
    (onCellClick 200 4 (sampleClient "playing" threeInRow "O")).state.next = some "X" ∧
    (cell (onCellClick 200 4 (sampleClient "playing" threeInRow "O")).state.board 4 =
        some "O" ∧
      (∀ j, j ≠ 4 →
        cell (onCellClick 200 4 (sampleClient "playing" threeInRow "O")).state.board j =
          cell threeInRow j) ∧
      (onCellClick 200 4 (sampleClient "playing" threeInRow "O")).state.board.length = 16 ∧
      (some "O" = some "O" →
        (onCellClick 200 4 (sampleClient "playing" threeInRow "O")).state.next = some "X") ∧
      (some "O" = some "X" →
        (onCellClick 200 4 (sampleClient "playing" threeInRow "O")).state.next = some "O") ∧
      (onCellClick 200 4 (sampleClient "playing" threeInRow "O")).state.status = "playing" ∧
      (onCellClick 200 4 (sampleClient "playing" threeInRow "O")).state.start = some "O" ∧
      (onCellClick 200 4 (sampleClient "playing" threeInRow "O")).state.winner = none ∧
      (onCellClick 200 4 (sampleClient "playing" threeInRow "O")).state.stripe = []) :=
  ⟨by decide,
    onCellClick_toggle 200 4 (sampleClient "playing" threeInRow "O") (player "O")
      rfl (Or.inl rfl) rfl rfl (by decide) (by decide) (by decide)⟩

/-- C10. For every state with status needFlip, every invoking identity and either
outcome of the coin flip, the control action ends with `start` "O" or "X", `next`
equal to `start`, a board of 16 empty cells, and status ready. -/
theorem controlClick_flip (now : Nat) (lessHalf : Bool) (c : Client)
    (hst : c.state.status = "needFlip") :
    ((controlClick now lessHalf c).state.start = some "O" ∨
        (controlClick now lessHalf c).state.start = some "X") ∧
      (controlClick now lessHalf c).state.next = (controlClick now lessHalf c).state.start ∧
      (controlClick now lessHalf c).state.board.length = 16 ∧
      (∀ x ∈ (controlClick now lessHalf c).state.board, x = some "") ∧
      (controlClick now lessHalf c).state.status = "ready" := by
  cases lessHalf <;>
    simp [controlClick, saveState, controlStep, hst, emptyBoard]

/-- C10 at the default state of `loadState`, for both outcomes of the coin. -/
theorem controlClick_flip_witness :
    (controlClick 200 true
        { state := loadState 100 none, myToken := none, posted := [] }).state.start = some "O" ∧
    (controlClick 200 false
        { state := loadState 100 none, myToken := none, posted := [] }).state.start = some "X" ∧
    (((controlClick 200 true { state := loadState 100 none, myToken := none, posted := [] }
          ).state.start = some "O" ∨
        (controlClick 200 true { state := loadState 100 none, myToken := none, posted := [] }
          ).state.start = some "X") ∧
      (controlClick 200 true { state := loadState 100 none, myToken := none, posted := [] }
          ).state.next =
        (controlClick 200 true { state := loadState 100 none, myToken := none, posted := [] }
          ).state.start ∧
      (controlClick 200 true { state := loadState 100 none, myToken := none, posted := [] }
          ).state.board.length = 16 ∧
      (∀ x ∈ (controlClick 200 true
          { state := loadState 100 none, myToken := none, posted := [] }).state.board,
        x = some "") ∧
      (controlClick 200 true { state := loadState 100 none, myToken := none, posted := [] }
          ).state.status = "ready") :=
  ⟨rfl, rfl, controlClick_flip 200 true _ rfl⟩

/-! ## The control button during a match -/

/-- C11. For every state with status playing and every invoking identity, the
control action ends with a board of 16 empty cells and status ready, `start` and
`next` being unchanged. -/
theorem controlClick_abort (now : Nat) (lessHalf : Bool) (c : Client)
    (hst : c.state.status = "playing") :
    (controlClick now lessHalf c).state.board.length = 16 ∧
      (∀ x ∈ (controlClick now lessHalf c).state.board, x = some "") ∧
      (controlClick now lessHalf c).state.status = "ready" ∧
      (controlClick now lessHalf c).state.start = c.state.start ∧
      (controlClick now lessHalf c).state.next = c.state.next := by
  simp [controlClick, saveState, controlStep, hst, emptyBoard]

/-- C11 during a match with "O" at 0, 1, 2, the button being clicked by an
identity that is neither "O" nor "X". -/
theorem controlClick_abort_witness :
    (controlClick 200 false (sampleClient "playing" threeInRow "Q")).state.board =
        emptyBoard ∧
    ((controlClick 200 false (sampleClient "playing" threeInRow "Q")).state.board.length = 16 ∧
      (∀ x ∈ (controlClick 200 false (sampleClient "playing" threeInRow "Q")).state.board,
        x = some "") ∧
      (controlClick 200 false (sampleClient "playing" threeInRow "Q")).state.status = "ready" ∧
      (controlClick 200 false (sampleClient "playing" threeInRow "Q")).state.start = some "O" ∧
      (controlClick 200 false (sampleClient "playing" threeInRow "Q")).state.next = some "O") :=
  ⟨by decide, controlClick_abort 200 false (sampleClient "playing" threeInRow "Q") rfl⟩

/-- C12 (the code departs from it). For every state with status ready or over and
every invoking identity, the control action leaves board, start, next, status,
winner and stripe as they were, but it is no no-op: the state is stamped with the
clock and the whole object is posted to the store. -/
theorem controlClick_rejected_writes (now : Nat) (lessHalf : Bool) (c : Client)
    (h : c.state.status = "ready" ∨ c.state.status = "over") :
    (controlClick now lessHalf c).state.timestamp = now ∧
      (controlClick now lessHalf c).posted = { c.state with timestamp := now } :: c.posted ∧
      (controlClick now lessHalf c).state.board = c.state.board ∧
      (controlClick now lessHalf c).state.start = c.state.start ∧
      (controlClick now lessHalf c).state.next = c.state.next ∧
      (controlClick now lessHalf c).state.status = c.state.status ∧
      (controlClick now lessHalf c).state.winner = c.state.winner ∧
      (controlClick now lessHalf c).state.stripe = c.state.stripe := by
  have h1 : c.state.status ≠ "needFlip" := by rcases h with h | h <;> rw [h] <;> decide
  have h2 : c.state.status ≠ "playing" := by rcases h with h | h <;> rw [h] <;> decide
  simp [controlClick, saveState, controlStep_of_idle lessHalf c h1 h2]

/-- C12 at the state ready with "O" next, the identity "X" clicking the button at
time 200: the timestamp goes from 100 to 200 and one request is posted. -/
theorem controlClick_rejected_writes_witness :
    (sampleClient "ready" emptyBoard "X").state.timestamp = 100 ∧
    (sampleClient "ready" emptyBoard "X").posted = [] ∧
    controlClick 200 true (sampleClient "ready" emptyBoard "X") ≠
      sampleClient "ready" emptyBoard "X" ∧
    ((controlClick 200 true (sampleClient "ready" emptyBoard "X")).state.timestamp = 200 ∧
      (controlClick 200 true (sampleClient "ready" emptyBoard "X")).posted =
        { (sampleClient "ready" emptyBoard "X").state with timestamp := 200 } :: [] ∧
      (controlClick 200 true (sampleClient "ready" emptyBoard "X")).state.board = emptyBoard ∧
      (controlClick 200 true (sampleClient "ready" emptyBoard "X")).state.start = some "O" ∧
      (controlClick 200 true (sampleClient "ready" emptyBoard "X")).state.next = some "O" ∧
      (controlClick 200 true (sampleClient "ready" emptyBoard "X")).state.status = "ready" ∧
      (controlClick 200 true (sampleClient "ready" emptyBoard "X")).state.winner = none ∧
      (controlClick 200 true (sampleClient "ready" emptyBoard "X")).state.stripe = []) :=
  ⟨rfl, rfl, by decide,
    controlClick_rejected_writes 200 true (sampleClient "ready" emptyBoard "X") (Or.inl rfl)⟩

/-! ## The order of the lines -/

theorem gridLines_eq_lineOrder : gridLines = lineOrder := by decide

theorem test_false_iff (board : List (Option String)) (l : Nat × Nat × Nat × Nat) :
    checkWin.test board l = false ↔ ¬ fourInLine board (lineList l) := by
  rw [← test_iff, Bool.not_eq_true]

/-- C13. `checkWin` visits the 10 lines in the order row 0 to row 3, column 0 to
column 3, main diagonal, anti-diagonal, and returns the first whose four cells are
non-empty and identical: for every board, if it returns the stripe L, then L has
four identical non-empty cells and no line before L in that order has. -/
theorem checkWin_first (board : List (Option String)) (w : Win)
    (h : checkWin board = some w) :
    ∃ pre post, lineOrder = pre ++ w.stripe :: post ∧ fourInLine board w.stripe ∧
      ∀ l ∈ pre, ¬ fourInLine board l := by
  obtain ⟨pre, l, post, hs, hpre, hl, rfl⟩ := (loop_eq_some board checkWin.s w).1 h
  refine ⟨pre.map lineList, post.map lineList, ?_, (test_iff board l).1 hl, ?_⟩
  · rw [← gridLines_eq_lineOrder, ← s_eq_gridLines, hs]
    simp
  · intro x hx
    obtain ⟨t, ht, rfl⟩ := List.mem_map.1 hx
    exact (test_false_iff board t).1 (hpre t ht)

/-- C13 on a board with rows 0 and 1 both complete: row 0 is returned. -/
theorem checkWin_first_witness :
    checkWin twoRows = some { winner := some "O", stripe := [0, 1, 2, 3] } ∧
    fourInLine twoRows [4, 5, 6, 7] ∧
    ∃ pre post, lineOrder = pre ++ [0, 1, 2, 3] :: post ∧ fourInLine twoRows [0, 1, 2, 3] ∧
      ∀ l ∈ pre, ¬ fourInLine twoRows l :=
  ⟨by decide, ⟨"X", by decide, by decide⟩,
    checkWin_first twoRows { winner := some "O", stripe := [0, 1, 2, 3] } (by decide)⟩

/-! ## The sync loop -/

/-- C14. One tick of `poll`, for every local state and every fetched state: when
the timestamps differ the local state becomes the fetched one, whole; when they
are equal the local state stays, even if other fields differ. Identity and issued
requests are untouched in both cases. -/
theorem pollTick_replaces_or_keeps (r : GameState) (c : Client) :
    (r.timestamp ≠ c.state.timestamp → (pollTick r c).state = r) ∧
      (r.timestamp = c.state.timestamp → (pollTick r c).state = c.state) ∧
      (pollTick r c).myToken = c.myToken ∧ (pollTick r c).posted = c.posted := by
  by_cases h : r.timestamp = c.state.timestamp <;> simp [pollTick, h]

/-- C14 at two fetched states that differ from the local one in board and status:
the one with another timestamp is adopted, the one with the same timestamp is not. -/
theorem pollTick_replaces_or_keeps_witness :
    (pollTick { sampleState "over" rowOfO with timestamp := 101 }
        (sampleClient "playing" threeInRow "O")).state =
      { sampleState "over" rowOfO with timestamp := 101 } ∧
    (pollTick (sampleState "over" rowOfO) (sampleClient "playing" threeInRow "O")).state =
      sampleState "playing" threeInRow ∧
    sampleState "over" rowOfO ≠ sampleState "playing" threeInRow :=
  ⟨(pollTick_replaces_or_keeps _ (sampleClient "playing" threeInRow "O")).1 (by decide),
    by decide, by decide⟩

/-- C15. Reconciliation is idempotent: for every local state and every fetched
state, a second tick of `poll` with the same fetched state changes nothing more. -/
theorem pollTick_idempotent (r : GameState) (c : Client) :
    pollTick r (pollTick r c) = pollTick r c := by
  by_cases h : r.timestamp = c.state.timestamp <;> simp [pollTick, h]

/-! ## The stripe invariant -/

theorem stripeInv_of_strong (st : GameState) (h : stripeInvStrong st) : stripeInv st := by
  intro hne
  obtain ⟨_, hlen, v, _, hw, hall⟩ := h hne
  exact ⟨hlen, fun i hi => (hall i hi).trans hw.symm⟩

theorem stripeInvStrong_controlStep (lessHalf : Bool) (c : Client)
    (h : stripeInvStrong c.state) : stripeInvStrong (controlStep lessHalf c) := by
  by_cases h1 : c.state.status = "needFlip"
  · have hnil : c.state.stripe = [] := by
      by_contra hne
      exact (h hne).1 h1
    intro hne
    simp [controlStep, h1, hnil] at hne
  · by_cases h2 : c.state.status = "playing"
    · intro hne
      simp [controlStep, h2] at hne
    · rw [controlStep_of_idle lessHalf c h1 h2]
      exact h

theorem applyMove_win (st : GameState) (idx : Nat) (w : Win)
    (hw : checkWin (setCell st.board idx st.next) = some w) :
    applyMove st idx =
      { st with board := setCell st.board idx st.next, status := "over",
                winner := w.winner, stripe := w.stripe, start := w.winner } := by
  simp [applyMove, hw]

theorem applyMove_draw (st : GameState) (idx : Nat)
    (hw : checkWin (setCell st.board idx st.next) = none)
    (hfull : some "" ∉ setCell st.board idx st.next) :
    applyMove st idx =
      { st with board := setCell st.board idx st.next, status := "over",
                winner := none, stripe := [] } := by
  simp [applyMove, hw, hfull]

theorem applyMove_toggle (st : GameState) (idx : Nat)
    (hw : checkWin (setCell st.board idx st.next) = none)
    (hroom : some "" ∈ setCell st.board idx st.next) :
    applyMove st idx =
      { st with board := setCell st.board idx st.next,
                next := if st.next = some "O" then some "X" else some "O" } := by
  simp [applyMove, hw, hroom]

theorem stripeInvStrong_applyMove (st : GameState) (idx : Nat)
    (h : stripeInvStrong st) (hfree : truthy (cell st.board idx) = false) :
    stripeInvStrong (applyMove st idx) := by
  cases hw : checkWin (setCell st.board idx st.next) with
  | some w =>
    rw [applyMove_win st idx w hw]
    obtain ⟨pre, l, post, _, _, hl, rfl⟩ := (loop_eq_some _ checkWin.s w).1 hw
    obtain ⟨v, hv, hall⟩ := (test_iff _ l).1 hl
    obtain ⟨a, b, c, d⟩ := l
    intro _
    refine ⟨?_, rfl, v, hv, hall a (by simp [lineList]), hall⟩
    show "over" ≠ "needFlip"
    decide
  | none =>
    by_cases hroom : some "" ∈ setCell st.board idx st.next
    · rw [applyMove_toggle st idx hw hroom]
      intro hne
      obtain ⟨hs, hlen, v, hv, hwin, hall⟩ := h hne
      refine ⟨hs, hlen, v, hv, hwin, fun i hi => ?_⟩
      have hi' : i ≠ idx := by
        rintro rfl
        rw [hall i hi] at hfree
        simp [truthy, hv] at hfree
      show cell (setCell st.board idx st.next) i = some v
      rw [cell_setCell_ne _ _ _ _ hi']
      exact hall i hi
    · rw [applyMove_draw st idx hw hroom]
      intro hne
      exact absurd rfl hne

theorem stripeInvStrong_onCellClick (now idx : Nat) (c : Client)
    (h : stripeInvStrong c.state) : stripeInvStrong (onCellClick now idx c).state := by
  unfold onCellClick
  split
  · exact h
  · split
    · exact h
    · split
      · exact h
      · next hfree =>
        exact stripeInvStrong_applyMove c.state idx h (by simpa using hfree)

/-- C16, as the code has it. The stripe invariant together with "a state that
shows a stripe is not in status needFlip and has a non-empty winner" holds in the
default initial state and, for every state in which it holds, it still holds
after any control action and after any cell click (any index, any identity); in
all these states the stripe, when non-empty, has exactly 4 indices and the board
cells at those indices all equal winner. -/
theorem stripeInvStrong_invariant (now : Nat) (lessHalf : Bool) (idx : Nat) (c : Client)
    (h : stripeInvStrong c.state) :
    stripeInvStrong (controlClick now lessHalf c).state ∧
      stripeInvStrong (onCellClick now idx c).state ∧
      stripeInv (controlClick now lessHalf c).state ∧
      stripeInv (onCellClick now idx c).state ∧
      stripeInvStrong (loadState now none) ∧ stripeInv (loadState now none) := by
  have hc : stripeInvStrong (controlClick now lessHalf c).state :=
    stripeInvStrong_controlStep lessHalf c h
  have hk := stripeInvStrong_onCellClick now idx c h
  have hd : stripeInvStrong (loadState now none) := fun hne => absurd rfl hne
  exact ⟨hc, hk, stripeInv_of_strong _ hc, stripeInv_of_strong _ hk, hd,
    stripeInv_of_strong _ hd⟩

/-- C16 at the end of the scenario of the specification: the state after "O"
completes row 0 satisfies the invariant, and so do the states after a further
control click and a further cell click. -/
theorem stripeInvStrong_invariant_witness :
    (onCellClick 200 3 (sampleClient "playing" threeInRow "O")).state.stripe = [0, 1, 2, 3] ∧
    (stripeInvStrong
        (controlClick 300 true (onCellClick 200 3 (sampleClient "playing" threeInRow "O"))).state ∧
      stripeInvStrong
        (onCellClick 300 4 (onCellClick 200 3 (sampleClient "playing" threeInRow "O"))).state ∧
      stripeInv
        (controlClick 300 true (onCellClick 200 3 (sampleClient "playing" threeInRow "O"))).state ∧
      stripeInv
        (onCellClick 300 4 (onCellClick 200 3 (sampleClient "playing" threeInRow "O"))).state ∧
      stripeInvStrong (loadState 300 none) ∧ stripeInv (loadState 300 none)) :=
  ⟨by decide,
    stripeInvStrong_invariant 300 true 4
      (onCellClick 200 3 (sampleClient "playing" threeInRow "O"))
      (fun _ => ⟨by decide, by decide, "O", by decide, by decide, by decide⟩)⟩

/-- C16 as stated fails. In status needFlip with the line of a finished match
still shown, the control action clears the board and keeps stripe and winner; in
status playing with a stripe of empty cells and the empty string as winner, a
move onto the stripe changes one of its cells. Both states satisfy the stripe
invariant, and neither successor does. -/
theorem stripeInv_not_preserved :
    (stripeInv staleFlipState ∧
      ¬ stripeInv (controlClick 200 true
          { state := staleFlipState, myToken := some (player "O"), posted := [] }).state) ∧
    (stripeInv emptyStripeState ∧
      ¬ stripeInv (onCellClick 200 0
          { state := emptyStripeState, myToken := some (player "O"), posted := [] }).state) := by
  unfold stripeInv
  decide

/-! ## Board shape and turn -/

theorem shapeInv_controlStep (lessHalf : Bool) (c : Client) (h : shapeInv c.state) :
    shapeInv (controlStep lessHalf c) := by
  by_cases h1 : c.state.status = "needFlip"
  · simp [shapeInv, controlStep, h1, emptyBoard]
  · by_cases h2 : c.state.status = "playing"
    · simp [shapeInv, controlStep, h2, emptyBoard]
    · rw [controlStep_of_idle lessHalf c h1 h2]
      exact h

theorem shapeInv_applyMove (st : GameState) (idx : Nat) (hidx : idx < 16)
    (h : shapeInv st) : shapeInv (applyMove st idx) := by
  have hlen : (setCell st.board idx st.next).length = 16 := by
    rw [length_setCell _ _ _ (by rw [h.1]; exact hidx), h.1]
  cases hw : checkWin (setCell st.board idx st.next) with
  | some w =>
    rw [applyMove_win st idx w hw]
    exact ⟨hlen, fun hp => absurd (show "over" = "playing" from hp) (by decide)⟩
  | none =>
    by_cases hroom : some "" ∈ setCell st.board idx st.next
    · rw [applyMove_toggle st idx hw hroom]
      refine ⟨hlen, fun _ => ?_⟩
      show (if st.next = some "O" then some "X" else some "O") = some "O" ∨
        (if st.next = some "O" then some "X" else some "O") = some "X"
      split
      · exact Or.inr rfl
      · exact Or.inl rfl
    · rw [applyMove_draw st idx hw hroom]
      exact ⟨hlen, fun hp => absurd (show "over" = "playing" from hp) (by decide)⟩

/-- C17. The default initial state has a board of exactly 16 slots, and for every
state whose board has exactly 16 slots and in which status playing implies that
`next` is "O" or "X", the state after any control action, and after any cell
click with index in 0..15, again has a board of exactly 16 slots and satisfies
"playing implies `next` is O or X". -/
theorem shapeInv_invariant (now : Nat) (lessHalf : Bool) (idx : Nat) (c : Client)
    (hidx : idx < 16) (h : shapeInv c.state) :
    (loadState now none).board.length = 16 ∧
      shapeInv (controlClick now lessHalf c).state ∧
      shapeInv (onCellClick now idx c).state := by
  refine ⟨by simp [loadState, defaultState, emptyBoard], shapeInv_controlStep lessHalf c h, ?_⟩
  unfold onCellClick
  split
  · exact h
  · split
    · exact h
    · split
      · exact h
      · exact shapeInv_applyMove c.state idx hidx h

/-- C17 during a match with "O" at 0, 1, 2: after the control click and after the
move of "O" to cell 4, where "X" becomes next. -/
theorem shapeInv_invariant_witness :
    (onCellClick 200 4 (sampleClient "playing" threeInRow "O")).state.status = "playing" ∧
    (onCellClick 200 4 (sampleClient "playing" threeInRow "O")).state.next = some "X" ∧
    ((loadState 200 none).board.length = 16 ∧
      shapeInv (controlClick 200 true (sampleClient "playing" threeInRow "O")).state ∧
      shapeInv (onCellClick 200 4 (sampleClient "playing" threeInRow "O")).state) :=
  ⟨by decide, by decide,
    shapeInv_invariant 200 true 4 (sampleClient "playing" threeInRow "O") (by decide)
      ⟨by decide, fun _ => Or.inl rfl⟩⟩

/-! ## Identities with another symbol -/

/-- C18. `setToken` keeps whatever string it is given, and an identity whose
symbol is neither "O" nor "X" never takes a turn: for every such identity, every
state (also one whose `next` holds that same string) and every index, `isMyTurn`
is false and the cell click returns the client as it was, with no request posted. -/
theorem onCellClick_other_symbol (browser : String) (t now idx : Nat)
    (name : Option String) (c : Client)
    (hO : name ≠ some "O") (hX : name ≠ some "X")
    (htok : c.myToken = some (setToken browser t name)) :
    (setToken browser t name).user = name ∧ isMyTurn c = false ∧
      onCellClick now idx c = c := by
  have hturn : isMyTurn c = false := by
    cases hm : isMyTurn c with
    | false => rfl
    | true =>
      obtain ⟨tok, htok2, _, h⟩ := (isMyTurn_iff c).1 hm
      rw [htok] at htok2
      cases htok2
      rcases h with ⟨_, hu⟩ | ⟨_, hu⟩
      · exact absurd hu hO
      · exact absurd hu hX
  refine ⟨rfl, hturn, ?_⟩
  unfold onCellClick
  split
  · rfl
  · simp [hturn]

/-- C18 for the symbol "Q", in a state of status playing whose `next` is "Q" too. -/
theorem onCellClick_other_symbol_witness :
    (setToken "Firefox" 1 (some "Q")).user = some "Q" ∧
      isMyTurn { state := { sampleState "playing" threeInRow with next := some "Q" },
                 myToken := some (setToken "Firefox" 1 (some "Q")), posted := [] } = false ∧
      onCellClick 200 5
          { state := { sampleState "playing" threeInRow with next := some "Q" },
            myToken := some (setToken "Firefox" 1 (some "Q")), posted := [] } =
        { state := { sampleState "playing" threeInRow with next := some "Q" },
          myToken := some (setToken "Firefox" 1 (some "Q")), posted := [] } :=
  onCellClick_other_symbol "Firefox" 1 200 5 (some "Q")
    { state := { sampleState "playing" threeInRow with next := some "Q" },
      myToken := some (setToken "Firefox" 1 (some "Q")), posted := [] }
    (by decide) (by decide) rfl

/-! ## Lines completed by one move -/

/-- On a board without a line, a line that passes the test of `checkWin` once `v`
is written at `idx` runs through `idx`, and all its cells hold `v`. -/
theorem line_through_move (board : List (Option String)) (idx : Nat) (v : Option String)
    (t : Nat × Nat × Nat × Nat) (hnone : checkWin board = none) (ht : t ∈ checkWin.s)
    (htest : checkWin.test (setCell board idx v) t = true) :
    idx ∈ lineList t ∧ ∀ i ∈ lineList t, cell (setCell board idx v) i = v := by
  obtain ⟨u, hu, hall⟩ := (test_iff _ t).1 htest
  have hmem : idx ∈ lineList t := by
    by_contra hnot
    have hold : fourInLine board (lineList t) := by
      refine ⟨u, hu, fun i hi => ?_⟩
      have hne : i ≠ idx := fun h => hnot (h ▸ hi)
      rw [← cell_setCell_ne board idx i v hne]
      exact hall i hi
    have := (loop_eq_none board checkWin.s).1 hnone t ht
    rw [(test_iff board t).2 hold] at this
    exact absurd this (by simp)
  have hv : v = some u := by
    rw [← cell_setCell_self board idx v]
    exact hall idx hmem
  exact ⟨hmem, fun i hi => (hall i hi).trans hv.symm⟩

/-- C19, as the code has it. For every board on which `checkWin` returns `null`,
every index and every symbol `s`: once `s` is placed at the index, each of the 10
lines with four identical non-empty cells runs through that index and holds `s`
in its four cells; so, in whatever order the lines are examined, the winner
returned is `s` and the stripe returned contains the index. -/
theorem lines_after_move (board : List (Option String)) (idx : Nat) (s : String)
    (order : List (Nat × Nat × Nat × Nat))
    (hnone : checkWin board = none) (horder : ∀ t ∈ order, t ∈ checkWin.s) :
    (∀ l ∈ gridLines, fourInLine (setCell board idx (some s)) l →
        idx ∈ l ∧ ∀ i ∈ l, cell (setCell board idx (some s)) i = some s) ∧
      (∀ w, checkWin.loop (setCell board idx (some s)) order = some w →
        w.winner = some s ∧ idx ∈ w.stripe) := by
  constructor
  · intro l hl hfour
    rw [← s_eq_gridLines, List.mem_map] at hl
    obtain ⟨t, ht, rfl⟩ := hl
    exact line_through_move board idx (some s) t hnone ht ((test_iff _ t).2 hfour)
  · intro w hw
    obtain ⟨pre, t, post, hord, _, htest, rfl⟩ := (loop_eq_some _ order w).1 hw
    have ht : t ∈ checkWin.s := horder t (by simp [hord])
    obtain ⟨hmem, hall⟩ := line_through_move board idx (some s) t hnone ht htest
    obtain ⟨a, b, c, d⟩ := t
    exact ⟨hall a (by simp [lineList]), hmem⟩

/-- C19 at the position where row 0 and column 3 both lack cell 3: with the lines
examined in the reverse order the winner is "O" as well, and cell 3 is in the
stripe. -/
theorem lines_after_move_witness :
    (∀ l ∈ gridLines, fourInLine (setCell crossBoard 3 (some "O")) l →
        3 ∈ l ∧ ∀ i ∈ l, cell (setCell crossBoard 3 (some "O")) i = some "O") ∧
      (∀ w, checkWin.loop (setCell crossBoard 3 (some "O")) checkWin.s.reverse = some w →
        w.winner = some "O" ∧ 3 ∈ w.stripe) :=
  lines_after_move crossBoard 3 "O" checkWin.s.reverse (by decide)
    (fun t ht => List.mem_reverse.1 ht)

/-- C19 as stated fails. On a 16-cell board over "", "O", "X" without a line, with
cell 3 empty, placing "O" at 3 completes two of the 10 lines at once, row 0 and
column 3; `checkWin` returns row 0, and the same loop over the table in reverse
order returns column 3. -/
theorem two_lines_after_one_move :
    crossBoard.length = 16 ∧ overSymbols crossBoard ∧ checkWin crossBoard = none ∧
    cell crossBoard 3 = some "" ∧
    [0, 1, 2, 3] ∈ gridLines ∧ [3, 7, 11, 15] ∈ gridLines ∧
    fourInLine (setCell crossBoard 3 (some "O")) [0, 1, 2, 3] ∧
    fourInLine (setCell crossBoard 3 (some "O")) [3, 7, 11, 15] ∧
    (checkWin (setCell crossBoard 3 (some "O"))).map Win.stripe = some [0, 1, 2, 3] ∧
    (checkWin.loop (setCell crossBoard 3 (some "O")) checkWin.s.reverse).map Win.stripe =
      some [3, 7, 11, 15] :=
  ⟨by decide, by unfold overSymbols; decide, by decide, by decide, by decide, by decide,
    ⟨"O", by decide, by decide⟩, ⟨"O", by decide, by decide⟩, by decide, by decide⟩

/-! ## The winner is the mover -/

/-- C20. For every state with status playing, `next` "O" or "X", the invoking
identity holding the symbol `next`, a board on which `checkWin` returns `null`, and
an empty cell `idx`: if the cell click ends with status over and a non-empty
stripe, then winner is the previous `next`, the stripe contains `idx`, `start` is
the previous `next`, and `next` is unchanged. -/
theorem onCellClick_win_credit (now idx : Nat) (c : Client) (tok : Token)
    (hst : c.state.status = "playing")
    (hnext : c.state.next = some "O" ∨ c.state.next = some "X")
    (htok : c.myToken = some tok) (huser : tok.user = c.state.next)
    (hnone : checkWin c.state.board = none)
    (hempty : cell c.state.board idx = some "")
    (hover : (onCellClick now idx c).state.status = "over")
    (hstripe : (onCellClick now idx c).state.stripe ≠ []) :
    (onCellClick now idx c).state.winner = c.state.next ∧
      idx ∈ (onCellClick now idx c).state.stripe ∧
      (onCellClick now idx c).state.start = c.state.next ∧
      (onCellClick now idx c).state.next = c.state.next := by
  rw [onCellClick_of_move now idx c tok hst hnext htok huser hempty] at hover hstripe ⊢
  simp only [saveState] at hover hstripe ⊢
  cases hw : checkWin (setCell c.state.board idx c.state.next) with
  | some w =>
    rw [applyMove_win c.state idx w hw]
    obtain ⟨pre, t, post, hs, _, htest, rfl⟩ := (loop_eq_some _ checkWin.s w).1 hw
    have ht : t ∈ checkWin.s := by simp [hs]
    obtain ⟨hmem, hall⟩ := line_through_move c.state.board idx c.state.next t hnone ht htest
    obtain ⟨a, b, c', d⟩ := t
    have ha := hall a (by simp [lineList])
    exact ⟨ha, hmem, ha, rfl⟩
  | none =>
    by_cases hroom : some "" ∈ setCell c.state.board idx c.state.next
    · rw [applyMove_toggle c.state idx hw hroom] at hover
      have hover2 : c.state.status = "over" := hover
      rw [hst] at hover2
      exact absurd hover2 (by decide)
    · rw [applyMove_draw c.state idx hw hroom] at hstripe
      exact absurd rfl hstripe

/-- C20 at the scenario of the specification, and at the position where the move
to cell 3 completes row 0 and column 3 together. -/
theorem onCellClick_win_credit_witness :
    ((onCellClick 200 3 (sampleClient "playing" crossBoard "O")).state.winner = some "O" ∧
      (onCellClick 200 3 (sampleClient "playing" crossBoard "O")).state.stripe = [0, 1, 2, 3]) ∧
    ((onCellClick 200 3 (sampleClient "playing" threeInRow "O")).state.winner = some "O" ∧
      3 ∈ (onCellClick 200 3 (sampleClient "playing" threeInRow "O")).state.stripe ∧
      (onCellClick 200 3 (sampleClient "playing" threeInRow "O")).state.start = some "O" ∧
      (onCellClick 200 3 (sampleClient "playing" threeInRow "O")).state.next = some "O") :=
  ⟨by decide,
    onCellClick_win_credit 200 3 (sampleClient "playing" threeInRow "O") (player "O")
      rfl (Or.inl rfl) rfl rfl (by decide) (by decide) (by decide) (by decide)⟩

end FourInARow
